import Mathlib

/-!
A verification development for the Zany Whisper daily-news scripts.
The file gives shallow, executable Lean embeddings of the string helpers
(tag stripping, whitespace collapsing, sentence splitting), the three
summarizer tiers, the retrying fetcher, the market-cap scraper and the
per-category collection driver of the repository, along with theorems
about the specification claims. Strings are modelled as lists of
characters; environment effects (network, clock, random draws, the date
serializer builtin) are passed as explicit arguments.
-/

namespace ZanyWhisper

/-- Character strings, modelled as lists of characters so the JS string
operations (regex replaces, splits, slices) can be given as executable
recursive functions. -/
abbrev Str := List Char

/-- JS short-circuit or on strings: a || b yields b exactly when a is
the empty string (the only falsy string). -/
def jsOr (a b : Str) : Str := if a = [] then b else a

/-- The JS regex whitespace class used by the scripts (space, tab,
newline, carriage return, vertical tab, form feed). -/
def isWsCh (c : Char) : Bool :=
  c = ' ' || c = '\t' || c = '\n' || c = '\r' || c = '\x0b' || c = '\x0c'

/-- Drop leading whitespace. -/
def trimLeft (s : Str) : Str := s.dropWhile isWsCh

/-- Drop trailing whitespace. -/
def trimRight (s : Str) : Str := (s.reverse.dropWhile isWsCh).reverse

/-- JS String.trim: drop whitespace on both ends. -/
def trimStr (s : Str) : Str := trimRight (trimLeft s)

/-- State machine for the JS global replace of maximal runs of
characters satisfying p by a single space; the flag records whether the
scanner is currently inside such a run. -/
def collapseRunsGo (p : Char → Bool) : Bool → Str → Str
  | _, [] => []
  | inRun, c :: rest =>
    if p c then
      if inRun then collapseRunsGo p true rest
      else ' ' :: collapseRunsGo p true rest
    else c :: collapseRunsGo p false rest

/-- Replace every maximal run of characters of the class p by one
space. -/
def collapseRuns (p : Char → Bool) (s : Str) : Str := collapseRunsGo p false s

/-- The JS replace of each whitespace run by a single space. -/
def collapseWs (s : Str) : Str := collapseRuns isWsCh s

/-- The JS replace of each newline run by a single space. This also
models the two-step replace (first runs of two or more newlines, then
single newlines) used in translateAndSummarize, whose joint effect
likewise maps every maximal newline run to one space. -/
def collapseNL (s : Str) : Str := collapseRuns (fun c => c = '\n') s

/-- Sentence-terminating punctuation of the split regex. -/
def isPunctCh (c : Char) : Bool := c = '.' || c = '!' || c = '?'

/-- State machine for the JS split on runs of sentence punctuation: acc
is the current fragment reversed, the flag records whether the scanner
is inside a punctuation run. Leading and trailing empty fragments are
produced exactly as the JS split produces them. -/
def splitPunctGo : Bool → Str → Str → List Str
  | _, acc, [] => [acc.reverse]
  | inRun, acc, c :: rest =>
    if isPunctCh c then
      if inRun then splitPunctGo true acc rest
      else acc.reverse :: splitPunctGo true [] rest
    else splitPunctGo false (c :: acc) rest

/-- JS split(/[.!?]+/). -/
def splitPunct (s : Str) : List Str := splitPunctGo false [] s

/-- Fuel-indexed scanner for the JS global replace of tags (a lt sign,
then any characters other than gt, then a gt sign) by nothing. At a lt
sign with a later gt sign the whole tag is dropped; a lt sign with no
closing gt sign can start no match, and nothing later can match either,
so the remaining text is kept. One unit of fuel is spent per consumed
character, so initialising the fuel with the input length makes the
scanner total. -/
def stripTagsGo : Nat → Str → Str
  | 0, s => s
  | _ + 1, [] => []
  | fuel + 1, c :: rest =>
    if c = '<' then
      match rest.dropWhile (fun d => d ≠ '>') with
      | [] => c :: rest
      | _ :: after => stripTagsGo fuel after
    else c :: stripTagsGo fuel rest

/-- JS replace(/<[^>]*>/g, empty). -/
def stripTags (s : Str) : Str := stripTagsGo s.length s

/-- The while loop of localSummaryFromText: while the sentence list is
shorter than minS, push the last sentence (or the whole cleaned text
when the list is empty) and stop early once maxS is reached. Each
iteration pushes exactly one element, so minS plus maxS plus one units
of fuel always suffice for the loop to run to its exit condition. -/
def padLoop (cleaned : Str) (minS maxS : Nat) : Nat → List Str → List Str
  | 0, s => s
  | fuel + 1, s =>
    if s.length < minS then
      let pushed := if s.isEmpty then cleaned else s.getLastD []
      let s2 := s ++ [pushed]
      if maxS ≤ s2.length then s2
      else padLoop cleaned minS maxS fuel s2
    else s

/-- JS Array.join with a separator: the empty list joins to the empty
string, and the separator is placed between consecutive elements. -/
def joinSep (sep : Str) : List Str → Str
  | [] => []
  | [x] => x
  | x :: y :: rest => x ++ sep ++ joinSep sep (y :: rest)

/-- Append a final period unless the string already ends with one
(the JS endsWith check followed by a conditional append). -/
def ensureDot (s : Str) : Str := if s.getLast? = some '.' then s else s ++ ['.']

/-- The constant returned by localSummaryFromText for absent input. -/
def localSummaryDefault : Str := "요약할 내용이 부족합니다.".toList

/-- The constant returned by generateFallbackSummary when no sentences
survive, and by generateTitleBasedSummary for a blank title. -/
def fallbackDefault : Str := "뉴스 내용을 확인해주세요.".toList

/-- localSummaryFromText, cleaning stage: strip tags, collapse
whitespace, trim, and keep the first 800 characters. -/
def lsfCleaned (text : Str) : Str :=
  (trimStr (collapseWs (stripTags text))).take 800

/-- localSummaryFromText, rough sentence extraction: split the cleaned
text on punctuation runs, trim each fragment and drop the empty ones. -/
def lsfRaw (text : Str) : List Str :=
  ((splitPunct (lsfCleaned text)).map trimStr).filter (fun s => s ≠ [])

/-- The number of sentences a reader recovers from a paragraph: split
on punctuation runs, trim the fragments and count the nonempty ones
(the same extraction the summarizer itself applies to its input). -/
def countSentences (s : Str) : Nat :=
  (((splitPunct s).map trimStr).filter (fun t => t ≠ [])).length

/-- localSummaryFromText, sentence selection: take at most
min (max minS 1) maxS extracted sentences, then run the padding loop. -/
def lsfSentences (text : Str) (minS maxS : Nat) : List Str :=
  padLoop (lsfCleaned text) minS maxS (minS + maxS + 1)
    ((lsfRaw text).take (min (max minS 1) maxS))

/-- The local fallback summary generator of the second script revision:
absent input yields a fixed default; otherwise the selected sentences
are joined with a period and a space, a final period is ensured, and
whitespace is collapsed and trimmed. -/
def localSummaryFromText (text : Str) (minS maxS : Nat) : Str :=
  if text = [] then localSummaryDefault
  else
    trimStr (collapseWs (ensureDot
      (joinSep ['.', ' '] (lsfSentences text minS maxS))))

/-- generateFallbackSummary, sentence stage: strip tags, trim, keep the
first 800 characters, split on punctuation runs, trim the fragments,
drop the empty ones and keep at most eight. -/
def gfsSentences (text : Str) : List Str :=
  (((splitPunct ((trimStr (stripTags text)).take 800)).map trimStr).filter
    (fun s => s ≠ [])).take 8

/-- The fallback summary of the first script revision: the surviving
sentences joined with single spaces, trimmed, with a final period
ensured; a fixed default when no sentence survives. -/
def generateFallbackSummary (text : Str) : Str :=
  let sentences := gfsSentences text
  if sentences = [] then fallbackDefault
  else ensureDot (trimStr (joinSep [' '] sentences))

/-- The seven sentence variants of generateTitleBasedSummary; the first
one embeds the trimmed title. -/
def titleVariants (base : Str) : List Str :=
  [ base ++ "과 관련된 주요 소식이 전해졌다.".toList,
    "해당 사안은 최근의 흐름과 연결되어 있으며 여러 이해관계자들이 주목하고 있다.".toList,
    "현장에서 확인된 내용에 따르면 핵심 쟁점은 관련 정책과 시장 반응에 있다.".toList,
    "향후 전개에 따라 추가 발표나 후속 보도가 이어질 가능성이 높다.".toList,
    "전문가들은 상황의 파급력을 면밀히 관찰하고 있다.".toList,
    "당분간 관련 동향을 주의 깊게 살필 필요가 있다.".toList,
    "현재까지 확인된 사실을 종합하면 핵심 포인트는 위주로 정리된다.".toList ]

/-- The title-based local summary of the main script: r is the draw
floor (random times four) taken by the source, a value in 0..3, so that
needed = 4 + r sentences follow the opening one, capped by the number of
variants. Blank titles yield the fixed default. -/
def generateTitleBasedSummary (title : Str) (r : Nat) : Str :=
  if trimStr title = [] then fallbackDefault
  else
    let base := trimStr title
    let variants := titleVariants base
    let needed := 4 + r
    let sentences := variants.take (min (needed + 1) variants.length)
    ensureDot (trimStr (collapseWs (joinSep [' '] sentences)))

/-- A translated title with its summary paragraph, the result shape of
every summarizer tier. -/
structure SummaryResult where
  titleKo : Str
  summary : Str
deriving DecidableEq

/-- Outcome of one remote chat-completion call: the content string of
the first choice, or a raised error (network, auth, empty response is
handled separately by the consumer). -/
inductive RemoteOutcome where
  | ok (content : Str)
  | err (msg : Str)

/-- JSON whitespace. -/
def jsonWs (c : Char) : Bool := c = ' ' || c = '\t' || c = '\n' || c = '\r'

/-- Parse a JSON string literal without escape sequences: a quote, then
characters other than quote and backslash, then a quote. Returns the
contents and the remaining input. This models JSON.parse string parsing
on the escape-free strings exchanged by the scripts. -/
def parseJString : Str → Option (Str × Str)
  | '"' :: rest =>
    let content := rest.takeWhile (fun c => c ≠ '"' && c ≠ '\\')
    match rest.drop content.length with
    | '"' :: tail => some (content, tail)
    | _ => none
  | _ => none

/-- Parse a comma-separated sequence of string-to-string members,
accumulating pairs; fuel decreases each member, and the caller passes
the input length so the loop is total. Returns the pairs and the rest of
the input with its leading whitespace already dropped. -/
def parsePairs : Nat → Str → List (Str × Str) → Option (List (Str × Str) × Str)
  | 0, _, _ => none
  | fuel + 1, s, acc =>
    match parseJString (s.dropWhile jsonWs) with
    | none => none
    | some (key, rest) =>
      match rest.dropWhile jsonWs with
      | ':' :: rest2 =>
        match parseJString (rest2.dropWhile jsonWs) with
        | none => none
        | some (val, rest3) =>
          match rest3.dropWhile jsonWs with
          | ',' :: rest4 => parsePairs fuel rest4 (acc ++ [(key, val)])
          | rest5 => some (acc ++ [(key, val)], rest5)
      | _ => none

/-- A model of JSON.parse restricted to the response contract of the
scripts: a single flat object whose members are escape-free string
pairs, with nothing but whitespace around it. Any other input is
reported as a parse failure, matching the fact that responses outside
the contract carry no usable titleKo and summary strings. -/
def parseJsonObj (s : Str) : Option (List (Str × Str)) :=
  match s.dropWhile jsonWs with
  | '\x7b' :: rest =>
    match rest.dropWhile jsonWs with
    | '\x7d' :: tail => if tail.dropWhile jsonWs = [] then some [] else none
    | rest2 =>
      match parsePairs (s.length + 1) rest2 [] with
      | none => none
      | some (pairs, rest3) =>
        match rest3 with
        | '\x7d' :: tail => if tail.dropWhile jsonWs = [] then some pairs else none
        | _ => none
  | _ => none

/-- Look a string field up in a parsed object; a missing field is the
empty (falsy) string, as reading an absent JS property and testing it
for truthiness. -/
def jsonField (obj : List (Str × Str)) (key : Str) : Str :=
  match obj.find? (fun p => p.1 = key) with
  | some p => p.2
  | none => []

/-- The match against the greedy regex of an opening brace, any
characters, and a closing brace: the substring from the first opening
brace to the last closing brace, when the first opening brace comes
before the last closing brace, and no match otherwise. -/
def braceExtract (s : Str) : Option Str :=
  match s.findIdx? (fun c => c = '\x7b'), s.reverse.findIdx? (fun c => c = '\x7d') with
  | some i, some k =>
    let j := s.length - 1 - k
    if i < j then some ((s.drop i).take (j - i + 1)) else none
  | _, _ => none

/-- Result of generateOpenAISummary: a summary result, or a raised
error that the caller catches (the source rethrows inside its own
catch, so a raise propagates to the per-item handler). -/
inductive GenResult where
  | ok (r : SummaryResult)
  | thrown (msg : Str)
deriving DecidableEq

/-- The raw-content return of generateOpenAISummary, used when the
parsed value is absent or lacks truthy titleKo and summary fields: the
whole content with newline runs collapsed and trimmed, under the
original title. -/
def rawReturn (title content : Str) : GenResult :=
  .ok { titleKo := title, summary := trimStr (collapseNL content) }

/-- generateOpenAISummary of the second script revision: an empty
content raises; a strict parse is attempted first, then a parse of the
brace-extracted substring, whose own parse failure raises uncaught (the
raised message stands in for the JS SyntaxError text); a parsed object
with truthy titleKo and summary fields yields the trimmed title and the
newline-collapsed trimmed summary, and anything else yields the raw
content. -/
def generateOpenAISummary (title : Str) (remote : RemoteOutcome) : GenResult :=
  match remote with
  | .err m => .thrown m
  | .ok content =>
    if content = [] then .thrown "empty response".toList
    else
      match parseJsonObj content with
      | some obj =>
        if !(jsonField obj "titleKo".toList).isEmpty &&
           !(jsonField obj "summary".toList).isEmpty then
          .ok { titleKo := trimStr (jsonField obj "titleKo".toList),
                summary := trimStr (collapseNL (jsonField obj "summary".toList)) }
        else rawReturn title content
      | none =>
        match braceExtract content with
        | none => rawReturn title content
        | some sub =>
          match parseJsonObj sub with
          | none => .thrown "json parse error".toList
          | some obj =>
            if !(jsonField obj "titleKo".toList).isEmpty &&
               !(jsonField obj "summary".toList).isEmpty then
              .ok { titleKo := trimStr (jsonField obj "titleKo".toList),
                    summary := trimStr (collapseNL (jsonField obj "summary".toList)) }
            else rawReturn title content

/-- An article record of the first script revision, as built from a
feed entry (the timestamp-derived id field carries no claim and is
omitted). -/
structure Article where
  title : Str
  description : Str
  content : Str
  contentSnippet : Str
  link : Str
  pubDate : Str
deriving DecidableEq

/-- A raw feed entry as delivered by the feed parser. -/
structure RawFeedItem where
  title : Str
  description : Str
  summaryField : Str
  contentSnippet : Str
  content : Str
  link : Str
  guid : Str
  pubDate : Str
deriving DecidableEq

/-- The per-entry article construction of fetchArticlesFromRSS: each
falsy field is replaced by its fallback, and a missing publish date is
replaced by the current timestamp now. -/
def buildArticle (now : Str) (item : RawFeedItem) : Article :=
  { title := jsOr item.title "No title".toList,
    description := jsOr item.description item.summaryField,
    content := item.content,
    contentSnippet := item.contentSnippet,
    link := item.link,
    pubDate := jsOr item.pubDate now }

/-- The input text of translateAndSummarize: the first truthy field of
content, contentSnippet and description, trimmed. -/
def tasInputText (a : Article) : Str :=
  trimStr (jsOr a.content (jsOr a.contentSnippet a.description))

/-- translateAndSummarize of the first script revision. Arguments model
the ambient effects: hasApiKey is the credential check, r is the random
draw floor consumed by generateTitleBasedSummary, and remote is the
outcome of the chat-completion call when one is made. The second output
component records whether a remote call was made. A short or absent
input yields the title-based local summary and no remote call; a
missing credential yields the local fallback summary and no remote
call; otherwise the tag-stripped input is sent, and a raised call or an
unparseable content falls back to the local fallback summary. -/
def translateAndSummarize (a : Article) (hasApiKey : Bool) (r : Nat)
    (remote : RemoteOutcome) : SummaryResult × Bool :=
  let inputText := tasInputText a
  if inputText.isEmpty || inputText.length < 100 then
    ({ titleKo := a.title,
       summary := generateTitleBasedSummary (jsOr a.title a.description) r }, false)
  else if !hasApiKey then
    ({ titleKo := a.title,
       summary := generateFallbackSummary
         (jsOr inputText (jsOr a.description a.title)) }, false)
  else
    let stripped := trimStr (stripTags inputText)
    match remote with
    | .err _ =>
      ({ titleKo := a.title,
         summary := generateFallbackSummary
           (jsOr stripped (jsOr a.description a.title)) }, true)
    | .ok content =>
      match parseJsonObj content with
      | none =>
        ({ titleKo := a.title,
           summary := generateFallbackSummary
             (jsOr stripped (jsOr a.description a.title)) }, true)
      | some obj =>
        ({ titleKo := jsOr (jsonField obj "titleKo".toList) a.title,
           summary := collapseNL (trimStr
             (jsOr (jsonField obj "summary".toList)
               (generateFallbackSummary stripped))) }, true)

/-- A configured source: a display name and a feed URL. -/
structure NewsSource where
  name : Str
  rss : Str
deriving DecidableEq

/-- A parsed feed entry as consumed by processSource. -/
structure FeedItem where
  title : Str
  content : Str
  contentSnippet : Str
  description : Str
  summaryField : Str
  link : Str
  guid : Str
  pubDate : Str
deriving DecidableEq

/-- A processed item as written into the output file. -/
structure OutItem where
  source : Str
  sourceUrl : Str
  title : Str
  translatedTitle : Str
  summary : Str
  url : Str
  publishedAt : Str
deriving DecidableEq

/-- Ambient effects of the second script revision, passed explicitly:
the credential check, the remote call outcome for each item, the date
builtin that reserializes a parseable date string to its ISO form (its
output for unparseable strings raises in the source and is not modelled
here), and the current timestamp. -/
structure Ctx where
  hasOpenAI : Bool
  remoteOf : FeedItem → RemoteOutcome
  dateToIso : Str → Str
  nowIso : Str

/-- The input text of a processSource item: the first truthy field of
content, contentSnippet, description and summary, trimmed. -/
def itemInputText (it : FeedItem) : Str :=
  trimStr (jsOr it.content (jsOr it.contentSnippet (jsOr it.description it.summaryField)))

/-- The summary selection of processSource for one item, before the
final normalization: with a credential and an input of at least 100
characters the remote summarizer is used, its raised errors falling
back to the local summary of the input; otherwise the local summary of
the input (or of the title when the input is empty) is used. The second
component records whether the summary came from a successful remote
call. -/
def processItemCore (ctx : Ctx) (it : FeedItem) : (Str × Str) × Bool :=
  let inputText := itemInputText it
  let title := trimStr it.title
  if ctx.hasOpenAI && !inputText.isEmpty && 100 ≤ inputText.length then
    match generateOpenAISummary title (ctx.remoteOf it) with
    | .ok ai => ((jsOr ai.titleKo title, jsOr ai.summary []), true)
    | .thrown _ => ((title, localSummaryFromText inputText 5 8), false)
  else
    ((title, localSummaryFromText (jsOr inputText title) 5 8), false)

/-- The full item processing of processSource: the core selection, then
the final normalization of the summary (newline runs to spaces, then
trim), and the construction of the output record with the fallback
chain for link and publish date. The second component again records a
successful remote call. -/
def processItem (ctx : Ctx) (src : NewsSource) (it : FeedItem) : OutItem × Bool :=
  let core := processItemCore ctx it
  ({ source := src.name,
     sourceUrl := src.rss,
     title := trimStr it.title,
     translatedTitle := core.1.1,
     summary := trimStr (collapseNL (jsOr core.1.2 [])),
     url := jsOr it.link it.guid,
     publishedAt := ctx.dateToIso (jsOr it.pubDate ctx.nowIso) }, core.2)

/-- One source entry of the output: the record the driver pushes for
every configured source. -/
structure SourceEntry where
  source : Str
  rss : Str
  items : List OutItem
  error : Option Str
deriving DecidableEq

/-- What one source produced during a run: a parsed item list, a fetch
or parse failure with its reason, or an exception raised out of
processSource and caught by the driver. -/
inductive SourceOutcome where
  | fetched (items : List FeedItem)
  | fetchFailed (reason : Str)
  | crashed (reason : Str)

/-- The entry the driver pushes for one source: items from a fetched
source (the error field stays empty), an empty item list with the
reason otherwise. -/
def categoryEntry (ctx : Ctx) (src : NewsSource) : SourceOutcome → SourceEntry
  | .fetched its =>
    { source := src.name, rss := src.rss,
      items := its.map (fun it => (processItem ctx src it).1), error := none }
  | .fetchFailed r =>
    { source := src.name, rss := src.rss, items := [], error := some r }
  | .crashed r =>
    { source := src.name, rss := src.rss, items := [], error := some r }

/-- The defensive while loop of main: as long as the entry list is
shorter than the source list, push a placeholder entry for the source
at the current position. Since each iteration pushes the entry for the
next missing position, the loop appends exactly the placeholders for
the sources beyond the current length. -/
def padEntries (es : List SourceEntry) (sources : List NewsSource) : List SourceEntry :=
  es ++ (sources.drop es.length).map
    (fun s => { source := s.name, rss := s.rss, items := [],
                error := some "no data".toList })

/-- The per-category driver loop of main: one entry per configured
source in order (the catch clause turning a raised error into a
placeholder entry), followed by the defensive padding loop. The
environment env gives each source its outcome for this run. -/
def runCategory (ctx : Ctx) (sources : List NewsSource)
    (env : NewsSource → SourceOutcome) : List SourceEntry :=
  padEntries (sources.map (fun s => categoryEntry ctx s (env s))) sources

/-- The World category sources configured in the second script
revision. -/
def worldSources : List NewsSource :=
  [ { name := "BBC World".toList,
      rss := "http://feeds.bbci.co.uk/news/world/rss.xml".toList },
    { name := "The Guardian".toList,
      rss := "https://www.theguardian.com/world/rss".toList },
    { name := "Al Jazeera".toList,
      rss := "https://www.aljazeera.com/xml/rss/all.xml".toList } ]

/-- Outcome of one fetch attempt: a resolved response with its status
and body text, an abort by the timeout timer, or another raised error
with its message. -/
inductive AttemptOutcome where
  | completed (status : Nat) (body : Str)
  | aborted
  | failed (msg : Str)
deriving DecidableEq

/-- The JS ok flag of a response: status in 200..299. -/
def resOk (status : Nat) : Bool := 200 ≤ status && status < 300

/-- The reason fetchWithRetries records for one unsuccessful attempt:
the text status with the code for a non-2xx response, the text timeout
for an abort, and the error message otherwise. -/
def attemptReason : AttemptOutcome → Str
  | .completed st _ => "status ".toList ++ (toString st).toList
  | .aborted => "timeout".toList
  | .failed m => m

/-- Whether an attempt succeeds: a resolved response whose status is
2xx. -/
def attemptSuccess : AttemptOutcome → Bool
  | .completed st _ => resOk st
  | .aborted => false
  | .failed _ => false

/-- The retry count constant of the second script revision. -/
def RETRIES : Nat := 2

/-- The result of fetchWithRetries: the body text with its status, or a
failure carrying the last recorded reason (empty before any attempt
runs, which cannot happen with a positive attempt budget). -/
inductive FetchResult where
  | success (status : Nat) (text : Str)
  | failure (error : Option Str)
deriving DecidableEq

/-- The attempt loop of fetchWithRetries: i is the zero-based attempt
index, remaining the attempts left, and lastErr the reason recorded so
far. A successful attempt returns its body at once; any other outcome
records its reason and the loop continues. -/
def fetchLoop (attempts : Nat → AttemptOutcome) :
    Nat → Nat → Option Str → FetchResult
  | _, 0, lastErr => .failure lastErr
  | i, remaining + 1, _lastErr =>
    match attempts i with
    | .completed st body =>
      if resOk st then .success st body
      else fetchLoop attempts (i + 1) remaining
        (some (attemptReason (.completed st body)))
    | .aborted => fetchLoop attempts (i + 1) remaining (some (attemptReason .aborted))
    | .failed m => fetchLoop attempts (i + 1) remaining (some (attemptReason (.failed m)))

/-- fetchWithRetries of the second script revision: at most RETRIES
plus one attempts, each outcome given by the environment, and no raise
can escape since every branch returns a FetchResult. -/
def fetchWithRetries (attempts : Nat → AttemptOutcome) : FetchResult :=
  fetchLoop attempts 0 (RETRIES + 1) none

/-- A scraped table row: the text of its first hyperlink (empty when
the row has no hyperlink) and the texts of its cells. -/
structure ScrapeRow where
  linkText : Str
  cells : List Str
deriving DecidableEq

/-- A ranked company entry of the market-cap output. -/
structure RankedCompany where
  rank : Nat
  company : Str
deriving DecidableEq

/-- The static default list for the US market-cap scrape. -/
def DEFAULT_US : List RankedCompany :=
  [ { rank := 1, company := "Apple Inc.".toList },
    { rank := 2, company := "Microsoft Corporation".toList },
    { rank := 3, company := "Saudi Aramco".toList },
    { rank := 4, company := "Alphabet Inc.".toList },
    { rank := 5, company := "Amazon.com Inc.".toList },
    { rank := 6, company := "Tesla Inc.".toList },
    { rank := 7, company := "Berkshire Hathaway Inc.".toList },
    { rank := 8, company := "Nvidia Corporation".toList },
    { rank := 9, company := "Meta Platforms Inc.".toList },
    { rank := 10, company := "Broadcom Inc.".toList } ]

/-- Decimal digits. -/
def isDigitCh (c : Char) : Bool := '0' ≤ c && c ≤ '9'

/-- The character class of the pure numeric or currency row filter:
digits, whitespace, comma, period, minus, dollar, percent and plus. -/
def numericCurrencyCh (c : Char) : Bool :=
  isDigitCh c || isWsCh c || c = ',' || c = '.' || c = '-' || c = '$' ||
    c = '%' || c = '+'

/-- The lowercase header words rejected by the case-insensitive header
row filter. -/
def headerWords : List Str :=
  ["rank".toList, "company".toList, "price".toList, "change".toList,
   "%".toList, "market".toList]

/-- Case-insensitive test of whether s starts with the lowercase word
w. -/
def startsWithCI (w s : Str) : Bool := (s.take w.length).map Char.toLower = w

/-- Whether a candidate name begins with an index symbol caret or
ampersand. -/
def startsWithIndexSymbol (name : Str) : Bool :=
  match name with
  | c :: _ => c = '^' || c = '&'
  | [] => false

/-- The row validation of fetchUSMarketCap: the name is truthy, longer
than two characters, starts with no index symbol, is not a pure numeric
or currency string, and starts with no header word. -/
def validCompanyName (name : Str) : Bool :=
  !name.isEmpty && decide (2 < name.length) &&
  !startsWithIndexSymbol name &&
  !(!name.isEmpty && name.all numericCurrencyCh) &&
  !(headerWords.any (fun w => startsWithCI w name))

/-- The candidate name derived from a row: the trimmed text of the
first hyperlink, or of the second cell when the row has no hyperlink
text, cut at the first newline and trimmed again. -/
def rowCompanyName (row : ScrapeRow) : Str :=
  let fromLink := trimStr row.linkText
  let name0 := if fromLink = [] then trimStr (row.cells.getD 1 []) else fromLink
  trimStr (name0.takeWhile (fun c => c ≠ '\n'))

/-- The extraction pass over the table rows: once ten entries are
collected the remaining rows are skipped (the JS early return inside
the iteration), rows with fewer than two cells are skipped, and a row
with a valid candidate name appends it with the next rank. -/
def collectGo : List ScrapeRow → List RankedCompany → List RankedCompany
  | [], acc => acc
  | row :: rest, acc =>
    if 10 ≤ acc.length then collectGo rest acc
    else if 2 ≤ row.cells.length then
      let nm := rowCompanyName row
      if validCompanyName nm then
        collectGo rest (acc ++ [{ rank := acc.length + 1, company := nm }])
      else collectGo rest acc
    else collectGo rest acc

/-- The companies extracted from a scraped document. -/
def extractUSCompanies (rows : List ScrapeRow) : List RankedCompany :=
  collectGo rows []

/-- fetchUSMarketCap: a failed page fetch uses the default list; an
extraction containing an index symbol raises and the handler uses the
default list; at least ten extracted entries are returned truncated to
ten; fewer than ten raise and the handler uses the default list. -/
def fetchUSMarketCap (fetchOk : Bool) (rows : List ScrapeRow) : List RankedCompany :=
  if !fetchOk then DEFAULT_US
  else
    let companies := extractUSCompanies rows
    if companies.any (fun c => startsWithIndexSymbol c.company) then DEFAULT_US
    else if 10 ≤ companies.length then companies.take 10
    else DEFAULT_US

/-! Support lemmas about the string helpers. -/

theorem mem_of_mem_dropWhile {p : Char → Bool} {c : Char} {s : Str}
    (h : c ∈ s.dropWhile p) : c ∈ s :=
  (List.dropWhile_sublist p).subset h

theorem mem_of_mem_trimLeft {c : Char} {s : Str} (h : c ∈ trimLeft s) : c ∈ s :=
  mem_of_mem_dropWhile h

theorem mem_of_mem_trimRight {c : Char} {s : Str} (h : c ∈ trimRight s) : c ∈ s := by
  unfold trimRight at h
  rw [List.mem_reverse] at h
  exact List.mem_reverse.mp (mem_of_mem_dropWhile h)

theorem mem_of_mem_trimStr {c : Char} {s : Str} (h : c ∈ trimStr s) : c ∈ s :=
  mem_of_mem_trimLeft (mem_of_mem_trimRight h)

theorem mem_collapseRunsGo {p : Char → Bool} {c : Char} :
    ∀ {flag : Bool} {s : Str}, c ∈ collapseRunsGo p flag s →
      (c ∈ s ∧ p c = false) ∨ c = ' ' := by
  intro flag s
  induction s generalizing flag with
  | nil => intro h; simp [collapseRunsGo] at h
  | cons d rest ih =>
    intro h
    by_cases hd : p d
    · cases flag with
      | true =>
        simp only [collapseRunsGo, hd, if_true] at h
        rcases ih h with ⟨h1, h2⟩ | h1
        · exact Or.inl ⟨List.mem_cons_of_mem _ h1, h2⟩
        · exact Or.inr h1
      | false =>
        simp only [collapseRunsGo, hd, if_true] at h
        rcases List.mem_cons.mp h with h1 | h1
        · exact Or.inr h1
        · rcases ih h1 with ⟨h2, h3⟩ | h2
          · exact Or.inl ⟨List.mem_cons_of_mem _ h2, h3⟩
          · exact Or.inr h2
    · simp only [collapseRunsGo, hd, if_false] at h
      rcases List.mem_cons.mp h with h1 | h1
      · subst h1
        exact Or.inl ⟨List.mem_cons_self _ _, by simpa using hd⟩
      · rcases ih h1 with ⟨h2, h3⟩ | h2
        · exact Or.inl ⟨List.mem_cons_of_mem _ h2, h3⟩
        · exact Or.inr h2

theorem mem_collapseRuns {p : Char → Bool} {c : Char} {s : Str}
    (h : c ∈ collapseRuns p s) : (c ∈ s ∧ p c = false) ∨ c = ' ' :=
  mem_collapseRunsGo h

/-- The normalized summary contains no newline: every newline run was
replaced by a space. -/
theorem newline_not_mem_collapseNL (s : Str) : '\n' ∉ collapseNL s := by
  intro h
  rcases mem_collapseRuns h with ⟨_, h2⟩ | h2
  · simp at h2
  · simp at h2

theorem newline_not_mem_trim_collapseNL (s : Str) :
    '\n' ∉ trimStr (collapseNL s) := by
  intro h
  exact newline_not_mem_collapseNL s (mem_of_mem_trimStr h)

theorem ne_nil_of_getLast?_eq_some {α : Type} {l : List α} {x : α}
    (h : l.getLast? = some x) : l ≠ [] := by
  intro hn
  subst hn
  simp [List.getLast?] at h

theorem getLast?_cons_of_ne_nil {α : Type} {a : α} {l : List α} (h : l ≠ []) :
    (a :: l).getLast? = l.getLast? := by
  cases l with
  | nil => exact absurd rfl h
  | cons b t => exact List.getLast?_cons_cons

theorem collapseRunsGo_cons (p : Char → Bool) (flag : Bool) (c : Char) (rest : Str) :
    collapseRunsGo p flag (c :: rest) =
      if p c then
        (if flag then collapseRunsGo p true rest else ' ' :: collapseRunsGo p true rest)
      else c :: collapseRunsGo p false rest := rfl

theorem getLast?_collapseRunsGo {p : Char → Bool} (hp : p '.' = false) :
    ∀ {flag : Bool} {s : Str}, s.getLast? = some '.' →
      (collapseRunsGo p flag s).getLast? = some '.' := by
  intro flag s
  induction s generalizing flag with
  | nil => intro h; simp [List.getLast?] at h
  | cons d rest ih =>
    intro h
    rw [collapseRunsGo_cons]
    cases rest with
    | nil =>
      have hd : d = '.' := by simpa [List.getLast?] using h
      subst hd
      rw [if_neg (by simp [hp])]
      simp [collapseRunsGo, List.getLast?]
    | cons e t =>
      have hr : (e :: t).getLast? = some '.' := by
        rw [← List.getLast?_cons_cons (a := d)]
        exact h
      have hne : ∀ fl, collapseRunsGo p fl (e :: t) ≠ [] := fun fl =>
        ne_nil_of_getLast?_eq_some (@ih fl hr)
      by_cases hd : p d = true
      · rw [if_pos hd]
        cases flag with
        | true =>
          rw [if_pos rfl]
          exact ih hr
        | false =>
          rw [if_neg (by decide)]
          rw [getLast?_cons_of_ne_nil (hne true)]
          exact ih hr
      · rw [if_neg hd]
        rw [getLast?_cons_of_ne_nil (hne false)]
        exact ih hr

theorem getLast?_collapseWs {s : Str} (h : s.getLast? = some '.') :
    (collapseWs s).getLast? = some '.' :=
  getLast?_collapseRunsGo (by decide) h

theorem getLast?_collapseNL {s : Str} (h : s.getLast? = some '.') :
    (collapseNL s).getLast? = some '.' :=
  getLast?_collapseRunsGo (by decide) h

theorem trimRight_of_getLast?_dot {s : Str} (h : s.getLast? = some '.') :
    trimRight s = s := by
  have hh : s.reverse.head? = some '.' := by rw [List.head?_reverse]; exact h
  unfold trimRight
  cases hr : s.reverse with
  | nil => simp [hr] at hh
  | cons a t =>
    have ha : a = '.' := by
      rw [hr, List.head?_cons] at hh
      exact Option.some.inj hh
    subst ha
    rw [List.dropWhile_cons_of_neg (by decide)]
    rw [← hr]
    exact List.reverse_reverse s

theorem getLast?_trimLeft {s : Str} (h : s.getLast? = some '.') :
    (trimLeft s).getLast? = some '.' := by
  induction s with
  | nil => simp [List.getLast?] at h
  | cons d rest ih =>
    cases rest with
    | nil =>
      have hd : d = '.' := by simpa [List.getLast?] using h
      subst hd
      decide
    | cons e t =>
      have hr : (e :: t).getLast? = some '.' := by
        rw [← List.getLast?_cons_cons (a := d)]
        exact h
      by_cases hd : isWsCh d
      · unfold trimLeft
        rw [List.dropWhile_cons_of_pos hd]
        exact ih hr
      · unfold trimLeft
        rw [List.dropWhile_cons_of_neg (by simpa using hd)]
        exact h

theorem getLast?_trimStr {s : Str} (h : s.getLast? = some '.') :
    (trimStr s).getLast? = some '.' := by
  unfold trimStr
  rw [trimRight_of_getLast?_dot (getLast?_trimLeft h)]
  exact getLast?_trimLeft h

theorem getLast?_ensureDot (s : Str) : (ensureDot s).getLast? = some '.' := by
  unfold ensureDot
  split
  · assumption
  · exact List.getLast?_concat s

/-- Every localSummaryFromText output ends with a period: the default
constants do, and on the main path the ensured period survives the
whitespace collapse and the trim. -/
theorem localSummaryFromText_getLast? (t : Str) (m M : Nat) :
    (localSummaryFromText t m M).getLast? = some '.' := by
  unfold localSummaryFromText
  split
  · decide
  · exact getLast?_trimStr (getLast?_collapseWs (getLast?_ensureDot _))

theorem jsOr_nil_right (a : Str) : jsOr a [] = a := by
  by_cases h : a = [] <;> simp [jsOr, h]

theorem getLastD_mem {α : Type} : ∀ {l : List α} {d : α}, l ≠ [] → l.getLastD d ∈ l := by
  intro l
  induction l with
  | nil => intro d h; exact absurd rfl h
  | cons a t ih =>
    intro d _
    rw [List.getLastD_cons]
    cases t with
    | nil => simp
    | cons b u => exact List.mem_cons_of_mem _ (ih (by simp))

theorem padLoop_succ (cleaned : Str) (minS maxS fuel : Nat) (s : List Str) :
    padLoop cleaned minS maxS (fuel + 1) s =
      if s.length < minS then
        (if maxS ≤ (s ++ [if s.isEmpty then cleaned else s.getLastD []]).length
         then s ++ [if s.isEmpty then cleaned else s.getLastD []]
         else padLoop cleaned minS maxS fuel
           (s ++ [if s.isEmpty then cleaned else s.getLastD []]))
      else s := rfl

/-- The padding loop, on a nonempty list no longer than the minimum,
appends copies of the last element until the minimum count is
reached. -/
theorem padLoop_spec (cleaned : Str) (minS maxS : Nat) :
    ∀ (fuel : Nat) (s : List Str), s ≠ [] → s.length ≤ minS → minS ≤ maxS →
      minS ≤ fuel + s.length →
      padLoop cleaned minS maxS fuel s =
        s ++ List.replicate (minS - s.length) (s.getLastD []) := by
  intro fuel
  induction fuel with
  | zero =>
    intro s _ hle _ hf
    have h0 : minS - s.length = 0 := by omega
    simp [padLoop, h0]
  | succ fuel ih =>
    intro s hne hle hmm hf
    rw [padLoop_succ]
    by_cases hlt : s.length < minS
    · rw [if_pos hlt]
      have hemp : ¬ (s.isEmpty = true) := by
        intro hx
        exact hne (List.isEmpty_iff.mp hx)
      rw [if_neg hemp]
      have hlen2 : (s ++ [s.getLastD []]).length = s.length + 1 := by
        simp
      by_cases hbr : maxS ≤ (s ++ [s.getLastD []]).length
      · rw [if_pos hbr]
        have h1 : minS - s.length = 1 := by omega
        rw [h1]
        rfl
      · rw [if_neg hbr]
        have hne2 : s ++ [s.getLastD []] ≠ [] := by simp
        have hle2 : (s ++ [s.getLastD []]).length ≤ minS := by omega
        have hf2 : minS ≤ fuel + (s ++ [s.getLastD []]).length := by omega
        rw [ih _ hne2 hle2 hmm hf2]
        rw [List.getLastD_concat]
        rw [hlen2]
        have hrep : minS - s.length = (minS - (s.length + 1)) + 1 := by omega
        rw [hrep, List.replicate_succ, List.append_assoc]
        rfl
    · rw [if_neg hlt]
      have h0 : minS - s.length = 0 := by omega
      simp [h0]

/-- Every element of the padded list is an element of the input list or
the whole cleaned text. -/
theorem mem_padLoop {cleaned : Str} {minS maxS : Nat} {x : Str} :
    ∀ {fuel : Nat} {s : List Str}, x ∈ padLoop cleaned minS maxS fuel s →
      x ∈ s ∨ x = cleaned := by
  intro fuel
  induction fuel with
  | zero => intro s h; exact Or.inl h
  | succ fuel ih =>
    intro s h
    rw [padLoop_succ] at h
    by_cases hlt : s.length < minS
    · rw [if_pos hlt] at h
      have hstep : ∀ y, y ∈ s ++ [if s.isEmpty then cleaned else s.getLastD []] →
          y ∈ s ∨ y = cleaned := by
        intro y hy
        rcases List.mem_append.mp hy with hy1 | hy1
        · exact Or.inl hy1
        · have hy2 : y = if s.isEmpty then cleaned else s.getLastD [] := by
            simpa using hy1
          by_cases hemp : s.isEmpty = true
          · rw [if_pos hemp] at hy2
            exact Or.inr hy2
          · rw [if_neg hemp] at hy2
            subst hy2
            refine Or.inl (getLastD_mem ?_)
            intro hx
            exact hemp (List.isEmpty_iff.mpr hx)
      by_cases hbr : maxS ≤ (s ++ [if s.isEmpty then cleaned else s.getLastD []]).length
      · rw [if_pos hbr] at h
        exact hstep x h
      · rw [if_neg hbr] at h
        rcases ih h with h1 | h1
        · exact hstep x h1
        · exact Or.inr h1
    · rw [if_neg hlt] at h
      exact Or.inl h

theorem splitPunctGo_cons (flag : Bool) (acc : Str) (c : Char) (rest : Str) :
    splitPunctGo flag acc (c :: rest) =
      if isPunctCh c then
        (if flag then splitPunctGo true acc rest
         else acc.reverse :: splitPunctGo true [] rest)
      else splitPunctGo false (c :: acc) rest := rfl

/-- Every character of every fragment of the punctuation split comes
from the accumulator or the input. -/
theorem mem_splitPunctGo {c : Char} :
    ∀ {s : Str} {flag : Bool} {acc t : Str},
      t ∈ splitPunctGo flag acc s → c ∈ t → c ∈ acc ∨ c ∈ s := by
  intro s
  induction s with
  | nil =>
    intro flag acc t ht hc
    simp only [splitPunctGo, List.mem_singleton] at ht
    subst ht
    exact Or.inl (List.mem_reverse.mp hc)
  | cons d rest ih =>
    intro flag acc t ht hc
    rw [splitPunctGo_cons] at ht
    by_cases hd : isPunctCh d = true
    · rw [if_pos hd] at ht
      cases flag with
      | true =>
        rw [if_pos rfl] at ht
        rcases ih ht hc with h1 | h1
        · exact Or.inl h1
        · exact Or.inr (List.mem_cons_of_mem _ h1)
      | false =>
        rw [if_neg (by decide)] at ht
        rcases List.mem_cons.mp ht with h1 | h1
        · subst h1
          exact Or.inl (List.mem_reverse.mp hc)
        · rcases ih h1 hc with h2 | h2
          · simp at h2
          · exact Or.inr (List.mem_cons_of_mem _ h2)
    · rw [if_neg hd] at ht
      rcases ih ht hc with h1 | h1
      · rcases List.mem_cons.mp h1 with h2 | h2
        · subst h2
          exact Or.inr (List.mem_cons_self _ _)
        · exact Or.inl h2
      · exact Or.inr (List.mem_cons_of_mem _ h1)

theorem mem_splitPunct {c : Char} {s t : Str}
    (ht : t ∈ splitPunct s) (hc : c ∈ t) : c ∈ s := by
  rcases mem_splitPunctGo ht hc with h1 | h1
  · simp at h1
  · exact h1

/-- Every character of a joined list comes from the separator or from
one of the elements. -/
theorem mem_joinSep {sep : Str} {c : Char} :
    ∀ {xs : List Str}, c ∈ joinSep sep xs → c ∈ sep ∨ ∃ t ∈ xs, c ∈ t := by
  intro xs
  induction xs with
  | nil => intro h; simp [joinSep] at h
  | cons x rest ih =>
    intro h
    cases rest with
    | nil =>
      exact Or.inr ⟨x, List.mem_singleton.mpr rfl, by simpa [joinSep] using h⟩
    | cons y t =>
      have hxy : joinSep sep (x :: y :: t) = x ++ sep ++ joinSep sep (y :: t) := rfl
      rw [hxy] at h
      rcases List.mem_append.mp h with h1 | h1
      · rcases List.mem_append.mp h1 with h2 | h2
        · exact Or.inr ⟨x, List.mem_cons_self _ _, h2⟩
        · exact Or.inl h2
      · rcases ih h1 with h2 | ⟨u, hu, hcu⟩
        · exact Or.inl h2
        · exact Or.inr ⟨u, List.mem_cons_of_mem _ hu, hcu⟩

/-- Tag stripping removes characters and inserts none. -/
theorem mem_stripTagsGo {c : Char} :
    ∀ {fuel : Nat} {s : Str}, c ∈ stripTagsGo fuel s → c ∈ s := by
  intro fuel
  induction fuel with
  | zero => intro s h; exact h
  | succ fuel ih =>
    intro s h
    cases s with
    | nil => simp [stripTagsGo] at h
    | cons d rest =>
      by_cases hd : d = '<'
      · subst hd
        rw [show stripTagsGo (fuel + 1) ('<' :: rest) =
              (match rest.dropWhile (fun e => e ≠ '>') with
               | [] => '<' :: rest
               | _ :: after => stripTagsGo fuel after) from by
              simp [stripTagsGo]] at h
        cases hdw : rest.dropWhile (fun e => e ≠ '>') with
        | nil => rw [hdw] at h; exact h
        | cons x after =>
          rw [hdw] at h
          have h2 : c ∈ x :: after := List.mem_cons_of_mem _ (ih h)
          rw [← hdw] at h2
          exact List.mem_cons_of_mem _ (mem_of_mem_dropWhile h2)
      · rw [show stripTagsGo (fuel + 1) (d :: rest) = d :: stripTagsGo fuel rest from by
              simp [stripTagsGo, hd]] at h
        rcases List.mem_cons.mp h with h1 | h1
        · subst h1; exact List.mem_cons_self _ _
        · exact List.mem_cons_of_mem _ (ih h1)

theorem mem_stripTags {c : Char} {s : Str} (h : c ∈ stripTags s) : c ∈ s :=
  mem_stripTagsGo h

/-- Every character of the cleaned text of localSummaryFromText is a
character of the input or a space. -/
theorem mem_lsfCleaned {text : Str} {c : Char} (h : c ∈ lsfCleaned text) :
    c ∈ text ∨ c = ' ' := by
  unfold lsfCleaned at h
  have h1 : c ∈ trimStr (collapseWs (stripTags text)) := List.take_subset _ _ h
  have h2 : c ∈ collapseWs (stripTags text) := mem_of_mem_trimStr h1
  rcases mem_collapseRuns h2 with ⟨h3, _⟩ | h3
  · exact Or.inl (mem_stripTags h3)
  · exact Or.inr h3

/-- Every character of a localSummaryFromText output on nonempty input
is a character of the input, a period or a space. -/
theorem mem_localSummaryFromText {text : Str} (hne : text ≠ []) {c : Char}
    (h : c ∈ localSummaryFromText text 5 8) : c ∈ text ∨ c = '.' ∨ c = ' ' := by
  unfold localSummaryFromText at h
  rw [if_neg hne] at h
  have h1 : c ∈ collapseWs (ensureDot (joinSep ['.', ' '] (lsfSentences text 5 8))) :=
    mem_of_mem_trimStr h
  have hcl : c ∈ lsfCleaned text → c ∈ text ∨ c = '.' ∨ c = ' ' := by
    intro hx
    rcases mem_lsfCleaned hx with h5 | h5
    · exact Or.inl h5
    · exact Or.inr (Or.inr h5)
  rcases mem_collapseRuns h1 with ⟨h2, _⟩ | h2
  · unfold ensureDot at h2
    have h3 : c ∈ joinSep ['.', ' '] (lsfSentences text 5 8) ∨ c = '.' := by
      by_cases hdot : (joinSep ['.', ' '] (lsfSentences text 5 8)).getLast? = some '.'
      · rw [if_pos hdot] at h2
        exact Or.inl h2
      · rw [if_neg hdot] at h2
        rcases List.mem_append.mp h2 with h3 | h3
        · exact Or.inl h3
        · exact Or.inr (by simpa using h3)
    rcases h3 with h3 | h3
    · rcases mem_joinSep h3 with h4 | ⟨t, ht, hct⟩
      · rcases List.mem_cons.mp h4 with h5 | h5
        · exact Or.inr (Or.inl h5)
        · exact Or.inr (Or.inr (by simpa using h5))
      · rcases mem_padLoop ht with h5 | h5
        · have h6 : t ∈ lsfRaw text := List.take_subset _ _ h5
          unfold lsfRaw at h6
          have h7 : t ∈ (splitPunct (lsfCleaned text)).map trimStr :=
            List.mem_of_mem_filter h6
          rcases List.mem_map.mp h7 with ⟨u, hu, hut⟩
          subst hut
          have h8 : c ∈ u := mem_of_mem_trimStr hct
          exact hcl (mem_splitPunct hu h8)
        · subst h5
          exact hcl hct
    · exact Or.inr (Or.inl h3)
  · exact Or.inr (Or.inr h2)

/-- With at least one extracted sentence, the padded sentence list of
localSummaryFromText at the configured band holds exactly five
sentences. -/
theorem lsfSentences_length {text : Str} (h : lsfRaw text ≠ []) :
    (lsfSentences text 5 8).length = 5 := by
  unfold lsfSentences
  have hmm : min (max 5 1) 8 = 5 := by norm_num
  rw [hmm]
  have hne : (lsfRaw text).take 5 ≠ [] := by
    rw [Ne, List.take_eq_nil_iff]
    push_neg
    exact ⟨by norm_num, h⟩
  have hle : ((lsfRaw text).take 5).length ≤ 5 := by
    rw [List.length_take]
    omega
  rw [padLoop_spec _ _ _ _ _ hne hle (by norm_num) (by omega)]
  rw [List.length_append, List.length_replicate]
  omega

/-- When the per-item summary of processSource did not come from a
successful remote call, it is a localSummaryFromText output. -/
theorem processItemCore_local_summary (ctx : Ctx) (it : FeedItem)
    (h : (processItemCore ctx it).2 = false) :
    ∃ t : Str, (processItemCore ctx it).1.2 = localSummaryFromText t 5 8 := by
  unfold processItemCore at h ⊢
  by_cases hc : (ctx.hasOpenAI && !(itemInputText it).isEmpty &&
      decide (100 ≤ (itemInputText it).length)) = true
  · rw [if_pos hc] at h ⊢
    cases hg : generateOpenAISummary (trimStr it.title) (ctx.remoteOf it) with
    | ok ai => rw [hg] at h; simp at h
    | thrown m => exact ⟨itemInputText it, rfl⟩
  · rw [if_neg hc] at h ⊢
    exact ⟨jsOr (itemInputText it) (trimStr it.title), rfl⟩

theorem fetchLoop_succ (att : Nat → AttemptOutcome) (i n : Nat) (e : Option Str) :
    fetchLoop att i (n + 1) e =
      match att i with
      | .completed st body =>
        if resOk st then .success st body
        else fetchLoop att (i + 1) n (some (attemptReason (.completed st body)))
      | .aborted => fetchLoop att (i + 1) n (some (attemptReason .aborted))
      | .failed m => fetchLoop att (i + 1) n (some (attemptReason (.failed m))) := rfl

/-- The fetch loop depends only on the attempts inside its budget. -/
theorem fetchLoop_agree (att att' : Nat → AttemptOutcome) :
    ∀ (n i : Nat) (e : Option Str),
      (∀ j, i ≤ j → j < i + n → att j = att' j) →
      fetchLoop att i n e = fetchLoop att' i n e := by
  intro n
  induction n with
  | zero => intro i e _; rfl
  | succ n ih =>
    intro i e hagree
    have h0 : att i = att' i := hagree i (le_refl i) (by omega)
    have hagree2 : ∀ j, i + 1 ≤ j → j < (i + 1) + n → att j = att' j := by
      intro j ha hb
      exact hagree j (by omega) (by omega)
    rw [fetchLoop_succ, fetchLoop_succ, ← h0]
    cases att i with
    | completed st body =>
      simp only []
      by_cases hok : resOk st = true
      · rw [if_pos hok, if_pos hok]
      · rw [if_neg hok, if_neg hok]
        exact ih (i + 1) _ hagree2
    | aborted => exact ih (i + 1) _ hagree2
    | failed m => exact ih (i + 1) _ hagree2

/-- When every attempt inside the budget fails, the fetch loop returns
the reason of the last attempt. -/
theorem fetchLoop_all_fail (att : Nat → AttemptOutcome) :
    ∀ (n i : Nat) (e : Option Str), 0 < n →
      (∀ j, i ≤ j → j < i + n → attemptSuccess (att j) = false) →
      fetchLoop att i n e = .failure (some (attemptReason (att (i + n - 1)))) := by
  intro n
  induction n with
  | zero => intro i e h; omega
  | succ n ih =>
    intro i e _ hfail
    have hi : attemptSuccess (att i) = false := hfail i (le_refl i) (by omega)
    rw [fetchLoop_succ]
    cases hatt : att i with
    | completed st body =>
      have hok : ¬ (resOk st = true) := by
        rw [hatt] at hi
        simp only [attemptSuccess] at hi
        simp [hi]
      simp only []
      rw [if_neg hok]
      cases n with
      | zero =>
        simp [fetchLoop, hatt]
      | succ m =>
        rw [ih (i + 1) _ (by omega)
          (fun j ha hb => hfail j (by omega) (by omega))]
        have harith : i + 1 + (m + 1) - 1 = i + (m + 1 + 1) - 1 := by omega
        rw [harith]
    | aborted =>
      simp only []
      cases n with
      | zero => simp [fetchLoop, hatt]
      | succ m =>
        rw [ih (i + 1) _ (by omega)
          (fun j ha hb => hfail j (by omega) (by omega))]
        have harith : i + 1 + (m + 1) - 1 = i + (m + 1 + 1) - 1 := by omega
        rw [harith]
    | failed msg =>
      simp only []
      cases n with
      | zero => simp [fetchLoop, hatt]
      | succ m =>
        rw [ih (i + 1) _ (by omega)
          (fun j ha hb => hfail j (by omega) (by omega))]
        have harith : i + 1 + (m + 1) - 1 = i + (m + 1 + 1) - 1 := by omega
        rw [harith]

/-! The claim theorems. -/

/-- C1. For every run and every category, the number of SourceEntry
records emitted for the category equals the number of configured
sources, regardless of fetch or parse failures, and every failed source
still yields an entry with an empty item list and its error reason;
the drivers padding loop keeps the count even if the entry list were
short. -/
theorem c1_category_cardinality (ctx : Ctx) (sources : List NewsSource)
    (env : NewsSource → SourceOutcome) :
    (runCategory ctx sources env).length = sources.length ∧
    ∀ s ∈ sources, ∀ r : Str, (env s = .fetchFailed r ∨ env s = .crashed r) →
      ({ source := s.name, rss := s.rss, items := [], error := some r } : SourceEntry)
        ∈ runCategory ctx sources env := by
  have hpad : runCategory ctx sources env =
      sources.map (fun s => categoryEntry ctx s (env s)) := by
    unfold runCategory padEntries
    rw [List.drop_eq_nil_of_le (by simp)]
    simp
  constructor
  · rw [hpad, List.length_map]
  · intro s hs r hr
    rw [hpad]
    refine List.mem_map.mpr ⟨s, hs, ?_⟩
    rcases hr with hr | hr <;> rw [hr] <;> rfl

/-- Witness for C1: three configured World sources, every fetch failing
with status 503; the category still has three entries and the failed
source keeps its reason with an empty item list. -/
theorem c1_category_cardinality_witness :
    (runCategory
      { hasOpenAI := false, remoteOf := fun _ => .err [],
        dateToIso := fun _ => [], nowIso := [] }
      worldSources (fun _ => .fetchFailed "status 503".toList)).length =
      worldSources.length ∧
    ({ source := "BBC World".toList,
       rss := "http://feeds.bbci.co.uk/news/world/rss.xml".toList,
       items := [], error := some "status 503".toList } : SourceEntry)
      ∈ runCategory
          { hasOpenAI := false, remoteOf := fun _ => .err [],
            dateToIso := fun _ => [], nowIso := [] }
          worldSources (fun _ => .fetchFailed "status 503".toList) := by
  have h := c1_category_cardinality
    { hasOpenAI := false, remoteOf := fun _ => .err [],
      dateToIso := fun _ => [], nowIso := [] }
    worldSources (fun _ => .fetchFailed "status 503".toList)
  refine ⟨h.1, ?_⟩
  exact h.2
    { name := "BBC World".toList,
      rss := "http://feeds.bbci.co.uk/news/world/rss.xml".toList }
    (by decide) "status 503".toList (Or.inl rfl)

/-- C2. For every item whose best-available input text is absent or
shorter than 100 characters, translateAndSummarize makes no remote call
(whatever the credential flag and the would-be remote outcome) and
returns the title-seeded local summary. -/
theorem c2_short_input_skips_remote (a : Article) (hasApiKey : Bool) (r : Nat)
    (remote : RemoteOutcome) (h : (tasInputText a).length < 100) :
    translateAndSummarize a hasApiKey r remote =
      ({ titleKo := a.title,
         summary := generateTitleBasedSummary (jsOr a.title a.description) r }, false) := by
  unfold translateAndSummarize
  rw [if_pos]
  simp [h]

set_option maxRecDepth 4000 in
/-- Witness for C2: a credential is configured and the description is
39 characters long; the summarizer still skips the remote call and
produces the title-seeded local summary. -/
theorem c2_short_input_skips_remote_witness :
    translateAndSummarize
      { title := "Short item title".toList,
        description := "Only forty characters of content here!".toList,
        content := [], contentSnippet := [], link := [], pubDate := [] }
      true 0 (.err []) =
      ({ titleKo := "Short item title".toList,
         summary := generateTitleBasedSummary "Short item title".toList 0 }, false) := by
  have h := c2_short_input_skips_remote
    { title := "Short item title".toList,
      description := "Only forty characters of content here!".toList,
      content := [], contentSnippet := [], link := [], pubDate := [] }
    true 0 (.err []) (by decide)
  exact h.trans (by decide)

/-- C3. fetchWithRetries inspects at most RETRIES plus one attempts
(its result is unchanged by anything beyond that budget), and when no
attempt inside the budget succeeds it returns a failure carrying the
reason recorded on the last attempt: the text timeout for an aborted
attempt and the status text for a non-2xx response. The embedding is a
total function, reflecting that no exception escapes the source
function. -/
theorem c3_fetch_retries_bounded_last_reason :
    (∀ att att' : Nat → AttemptOutcome,
        (∀ j, j < RETRIES + 1 → att j = att' j) →
        fetchWithRetries att = fetchWithRetries att') ∧
    (∀ att : Nat → AttemptOutcome,
        (∀ j, j < RETRIES + 1 → attemptSuccess (att j) = false) →
        fetchWithRetries att = .failure (some (attemptReason (att RETRIES)))) := by
  constructor
  · intro att att' hagree
    exact fetchLoop_agree att att' (RETRIES + 1) 0 none
      (fun j _ hb => hagree j (by omega))
  · intro att hfail
    have h := fetchLoop_all_fail att (RETRIES + 1) 0 none (by omega)
      (fun j _ hb => hfail j (by omega))
    have harith : 0 + (RETRIES + 1) - 1 = RETRIES := by omega
    rw [harith] at h
    exact h

/-- Witness for C3: every attempt aborts, giving the timeout reason;
every attempt resolves with status 503, giving the status reason. -/
theorem c3_fetch_retries_bounded_last_reason_witness :
    fetchWithRetries (fun _ => .aborted) = .failure (some "timeout".toList) ∧
    fetchWithRetries (fun _ => .completed 503 []) =
      .failure (some "status 503".toList) := by
  constructor
  · have h := c3_fetch_retries_bounded_last_reason.2 (fun _ => .aborted)
      (fun _ _ => rfl)
    exact h.trans (by decide)
  · have h := c3_fetch_retries_bounded_last_reason.2 (fun _ => .completed 503 [])
      (fun _ _ => rfl)
    exact h.trans (by decide)

set_option maxRecDepth 10000 in
/-- Counterexample for C4. The claim says every summary in a
SummaryResult, whichever tier produced it, ends with
sentence-terminating punctuation. When the remote call returns a
well-formed response whose summary field lacks terminal punctuation,
the final normalization of processSource removes newlines but appends
no punctuation, so the emitted summary ends with a letter. -/
theorem c4_counterexample :
    (processItem
      { hasOpenAI := true,
        remoteOf := fun _ =>
          .ok "\x7b\"titleKo\":\"제목\",\"summary\":\"No final period\"\x7d".toList,
        dateToIso := fun _ => "1970-01-01T00:00:00.000Z".toList,
        nowIso := "2026-01-01T00:00:00.000Z".toList }
      { name := "BBC World".toList,
        rss := "http://feeds.bbci.co.uk/news/world/rss.xml".toList }
      { title := "A title".toList,
        content := "This content string is deliberately written to be much longer than one hundred characters so that the remote summarization branch is taken.".toList,
        contentSnippet := [], description := [], summaryField := [],
        link := [], guid := [], pubDate := [] }).1.summary =
      "No final period".toList ∧
    ((processItem
      { hasOpenAI := true,
        remoteOf := fun _ =>
          .ok "\x7b\"titleKo\":\"제목\",\"summary\":\"No final period\"\x7d".toList,
        dateToIso := fun _ => "1970-01-01T00:00:00.000Z".toList,
        nowIso := "2026-01-01T00:00:00.000Z".toList }
      { name := "BBC World".toList,
        rss := "http://feeds.bbci.co.uk/news/world/rss.xml".toList }
      { title := "A title".toList,
        content := "This content string is deliberately written to be much longer than one hundred characters so that the remote summarization branch is taken.".toList,
        contentSnippet := [], description := [], summaryField := [],
        link := [], guid := [], pubDate := [] }).1.summary).getLast? = some 'd' ∧
    isPunctCh 'd' = false := by
  refine ⟨by decide, by decide, by decide⟩

/-- C4 amended. Every emitted summary contains no newline character
(the final normalization collapses newline runs to spaces), and every
summary that did not come from a successful remote call - the local
fallback tiers - additionally ends with a period; a remote-produced
summary need not end with sentence punctuation. -/
theorem c4_summary_normalized (ctx : Ctx) (src : NewsSource) (it : FeedItem) :
    '\n' ∉ (processItem ctx src it).1.summary ∧
    ((processItem ctx src it).2 = false →
      ((processItem ctx src it).1.summary).getLast? = some '.') := by
  constructor
  · show '\n' ∉ trimStr (collapseNL (jsOr (processItemCore ctx it).1.2 []))
    exact newline_not_mem_trim_collapseNL _
  · intro h2
    have hcore : (processItemCore ctx it).2 = false := h2
    rcases processItemCore_local_summary ctx it hcore with ⟨t, ht⟩
    show (trimStr (collapseNL (jsOr (processItemCore ctx it).1.2 []))).getLast? = some '.'
    rw [jsOr_nil_right, ht]
    exact getLast?_trimStr (getLast?_collapseNL (localSummaryFromText_getLast? _ _ _))

set_option maxRecDepth 4000 in
/-- Witness for C4 amended: with no credential the local tier runs and
the emitted summary has no newline and ends with a period. -/
theorem c4_summary_normalized_witness :
    '\n' ∉ (processItem
      { hasOpenAI := false, remoteOf := fun _ => .err [],
        dateToIso := fun _ => "1970-01-01T00:00:00.000Z".toList,
        nowIso := "2026-01-01T00:00:00.000Z".toList }
      { name := "BBC World".toList, rss := "rss".toList }
      { title := "Alpha beta. Gamma delta.".toList, content := [],
        contentSnippet := [], description := [], summaryField := [],
        link := [], guid := [], pubDate := [] }).1.summary ∧
    ((processItem
      { hasOpenAI := false, remoteOf := fun _ => .err [],
        dateToIso := fun _ => "1970-01-01T00:00:00.000Z".toList,
        nowIso := "2026-01-01T00:00:00.000Z".toList }
      { name := "BBC World".toList, rss := "rss".toList }
      { title := "Alpha beta. Gamma delta.".toList, content := [],
        contentSnippet := [], description := [], summaryField := [],
        link := [], guid := [], pubDate := [] }).1.summary).getLast? = some '.' := by
  have h := c4_summary_normalized
    { hasOpenAI := false, remoteOf := fun _ => .err [],
      dateToIso := fun _ => "1970-01-01T00:00:00.000Z".toList,
      nowIso := "2026-01-01T00:00:00.000Z".toList }
    { name := "BBC World".toList, rss := "rss".toList }
    { title := "Alpha beta. Gamma delta.".toList, content := [],
      contentSnippet := [], description := [], summaryField := [],
      link := [], guid := [], pubDate := [] }
  exact ⟨h.1, h.2 (by decide)⟩

set_option maxRecDepth 4000 in
/-- Counterexample for C5. The claim says an input whose stripped form
yields no sentences gets the fixed default phrase, and any other input
a sentence count within the band. The source returns the default only
for an absent input: a nonempty input that strips to nothing is padded
with empty fragments, giving a dot-and-space string with zero
recoverable sentences, which is not the default. -/
theorem c5_counterexample :
    localSummaryFromText "<p></p>".toList 5 8 = ". . . . .".toList ∧
    countSentences (localSummaryFromText "<p></p>".toList 5 8) = 0 ∧
    localSummaryFromText "<p></p>".toList 5 8 ≠ localSummaryDefault := by
  refine ⟨by decide, by decide, by decide⟩

/-- C5 amended. An absent input yields the fixed default; an input with
at least one extracted sentence yields a paragraph built from exactly
five sentences, within the five-to-eight band. An input that is
nonempty but strips to no sentences is covered by neither clause, as
the counterexample shows. -/
theorem c5_sentence_band (text : Str) :
    (text = [] → localSummaryFromText text 5 8 = localSummaryDefault) ∧
    (lsfRaw text ≠ [] →
      5 ≤ (lsfSentences text 5 8).length ∧ (lsfSentences text 5 8).length ≤ 8) := by
  constructor
  · intro h
    subst h
    rfl
  · intro h
    rw [lsfSentences_length h]
    omega

set_option maxRecDepth 4000 in
/-- Witness for C5 amended: the empty input gives the default, and a
two-sentence input is padded to exactly five sentences. -/
theorem c5_sentence_band_witness :
    localSummaryFromText [] 5 8 = localSummaryDefault ∧
    (5 ≤ (lsfSentences "Alpha beta. Gamma delta.".toList 5 8).length ∧
      (lsfSentences "Alpha beta. Gamma delta.".toList 5 8).length ≤ 8) := by
  refine ⟨(c5_sentence_band []).1 rfl, ?_⟩
  exact (c5_sentence_band "Alpha beta. Gamma delta.".toList).2 (by decide)

/-- C6. When fewer than the minimum five sentences are extracted from
an input that still yields at least one, the padding repeats the last
extracted sentence, and the output never contains the bracketed
placeholder token of the superseded revision: every output character is
an input character, a period or a space, so an input without an opening
bracket yields an output without the token. -/
theorem c6_padding_no_placeholder (text : Str)
    (h1 : lsfRaw text ≠ []) (h2 : (lsfRaw text).length < 5) :
    lsfSentences text 5 8 =
      lsfRaw text ++
        List.replicate (5 - (lsfRaw text).length) ((lsfRaw text).getLastD []) ∧
    ('[' ∉ text → ¬ ("[정보 제한]".toList <:+: localSummaryFromText text 5 8)) := by
  have htext : text ≠ [] := by
    intro hx
    rw [hx] at h1
    exact h1 (by decide)
  constructor
  · unfold lsfSentences
    have hmm : min (max 5 1) 8 = 5 := by norm_num
    rw [hmm]
    rw [List.take_of_length_le (by omega)]
    exact padLoop_spec _ _ _ _ _ h1 (by omega) (by norm_num) (by omega)
  · intro hbr hinf
    have hmem : '[' ∈ localSummaryFromText text 5 8 :=
      hinf.sublist.subset (by decide)
    rcases mem_localSummaryFromText htext hmem with h3 | h3 | h3
    · exact hbr h3
    · simp at h3
    · simp at h3

set_option maxRecDepth 4000 in
/-- Witness for C6: a two-sentence input is padded by repeating its
last sentence three times, and the output carries no placeholder
token. -/
theorem c6_padding_no_placeholder_witness :
    lsfSentences "Alpha beta. Gamma delta.".toList 5 8 =
      lsfRaw "Alpha beta. Gamma delta.".toList ++
        List.replicate (5 - (lsfRaw "Alpha beta. Gamma delta.".toList).length)
          ((lsfRaw "Alpha beta. Gamma delta.".toList).getLastD []) ∧
    ¬ ("[정보 제한]".toList <:+:
        localSummaryFromText "Alpha beta. Gamma delta.".toList 5 8) := by
  have h := c6_padding_no_placeholder "Alpha beta. Gamma delta.".toList
    (by decide) (by decide)
  exact ⟨h.1, h.2 (by decide)⟩

/-- C7. Whenever fewer than ten valid company rows can be extracted
from the scraped document, fetchUSMarketCap returns the static default
list of exactly ten entries; a partial extraction is never returned. -/
theorem c7_partial_scrape_uses_default (fetchOk : Bool) (rows : List ScrapeRow)
    (h : (extractUSCompanies rows).length < 10) :
    fetchUSMarketCap fetchOk rows = DEFAULT_US ∧ DEFAULT_US.length = 10 := by
  refine ⟨?_, by decide⟩
  cases fetchOk with
  | false => rfl
  | true =>
    show (if (extractUSCompanies rows).any (fun c => startsWithIndexSymbol c.company)
          then DEFAULT_US
          else if 10 ≤ (extractUSCompanies rows).length
          then (extractUSCompanies rows).take 10
          else DEFAULT_US) = DEFAULT_US
    by_cases hidx :
        (extractUSCompanies rows).any (fun c => startsWithIndexSymbol c.company) = true
    · rw [if_pos hidx]
    · rw [if_neg hidx, if_neg (by omega)]

set_option maxRecDepth 4000 in
/-- Witness for C7: seven valid extracted rows are treated as a failed
scrape and the static ten-entry default list is substituted. -/
theorem c7_partial_scrape_uses_default_witness :
    fetchUSMarketCap true
      (List.replicate 7
        { linkText := "Acme Corporation".toList,
          cells := ["1".toList, "x".toList] }) = DEFAULT_US ∧
    DEFAULT_US.length = 10 :=
  c7_partial_scrape_uses_default true
    (List.replicate 7
      { linkText := "Acme Corporation".toList,
        cells := ["1".toList, "x".toList] }) (by decide)

set_option maxRecDepth 10000 in
/-- Counterexample for C8. The claim says a non-JSON response body
containing an embedded brace-delimited object has its first such
substring extracted and parsed. The source regex is greedy: it spans
from the first opening brace to the last closing brace. On a body with
two embedded objects the span covers both, its parse raises, and the
raise escapes the consumer, so the response is treated as a failure
even though the first embedded object is valid and complete. -/
theorem c8_counterexample :
    parseJsonObj "x \x7b\"titleKo\":\"a\",\"summary\":\"b\"\x7d y \x7b\"titleKo\":\"c\",\"summary\":\"d\"\x7d z".toList = none ∧
    parseJsonObj "\x7b\"titleKo\":\"a\",\"summary\":\"b\"\x7d".toList =
      some [("titleKo".toList, "a".toList), ("summary".toList, "b".toList)] ∧
    ("\x7b\"titleKo\":\"a\",\"summary\":\"b\"\x7d".toList <:+:
      "x \x7b\"titleKo\":\"a\",\"summary\":\"b\"\x7d y \x7b\"titleKo\":\"c\",\"summary\":\"d\"\x7d z".toList) ∧
    generateOpenAISummary "T0".toList
      (.ok "x \x7b\"titleKo\":\"a\",\"summary\":\"b\"\x7d y \x7b\"titleKo\":\"c\",\"summary\":\"d\"\x7d z".toList) =
      .thrown "json parse error".toList := by
  refine ⟨by decide, by decide, by decide, by decide⟩

/-- C8 amended. The tolerance applies to the greedy brace span: when
the strict parse fails but the substring from the first opening brace
to the last closing brace parses as an object with truthy titleKo and
summary fields, the consumer returns those fields (trimmed, newline
runs collapsed) instead of failing. -/
theorem c8_brace_span_tolerance (title content sub : Str) (obj : List (Str × Str))
    (h1 : parseJsonObj content = none)
    (h2 : braceExtract content = some sub)
    (h3 : parseJsonObj sub = some obj)
    (h4 : jsonField obj "titleKo".toList ≠ [])
    (h5 : jsonField obj "summary".toList ≠ []) :
    generateOpenAISummary title (.ok content) =
      .ok { titleKo := trimStr (jsonField obj "titleKo".toList),
            summary := trimStr (collapseNL (jsonField obj "summary".toList)) } := by
  have hcne : content ≠ [] := by
    intro hx
    rw [hx] at h2
    rw [show braceExtract [] = none from rfl] at h2
    exact Option.noConfusion h2
  have e4 : (jsonField obj "titleKo".toList).isEmpty = false :=
    List.isEmpty_eq_false.mpr h4
  have e5 : (jsonField obj "summary".toList).isEmpty = false :=
    List.isEmpty_eq_false.mpr h5
  show (if content = [] then GenResult.thrown "empty response".toList
        else match parseJsonObj content with
          | some obj2 =>
            if !(jsonField obj2 "titleKo".toList).isEmpty &&
               !(jsonField obj2 "summary".toList).isEmpty then
              .ok { titleKo := trimStr (jsonField obj2 "titleKo".toList),
                    summary := trimStr (collapseNL (jsonField obj2 "summary".toList)) }
            else rawReturn title content
          | none =>
            match braceExtract content with
            | none => rawReturn title content
            | some sub2 =>
              match parseJsonObj sub2 with
              | none => .thrown "json parse error".toList
              | some obj2 =>
                if !(jsonField obj2 "titleKo".toList).isEmpty &&
                   !(jsonField obj2 "summary".toList).isEmpty then
                  .ok { titleKo := trimStr (jsonField obj2 "titleKo".toList),
                        summary := trimStr (collapseNL (jsonField obj2 "summary".toList)) }
                else rawReturn title content) = _
  rw [if_neg hcne, h1]
  simp only []
  rw [h2]
  simp only []
  rw [h3]
  simp only []
  rw [if_pos (by rw [e4, e5]; rfl)]

set_option maxRecDepth 10000 in
/-- Witness for C8 amended: a chatty non-JSON reply around a single
embedded object is tolerated and its fields are returned. -/
theorem c8_brace_span_tolerance_witness :
    generateOpenAISummary "T0".toList
      (.ok "Sure! \x7b\"titleKo\":\"제목\",\"summary\":\"요약문\"\x7d".toList) =
      .ok { titleKo := "제목".toList, summary := "요약문".toList } := by
  have h := c8_brace_span_tolerance "T0".toList
    "Sure! \x7b\"titleKo\":\"제목\",\"summary\":\"요약문\"\x7d".toList
    "\x7b\"titleKo\":\"제목\",\"summary\":\"요약문\"\x7d".toList
    [("titleKo".toList, "제목".toList), ("summary".toList, "요약문".toList)]
    (by decide) (by decide) (by decide) (by decide) (by decide)
  exact h.trans (by decide)

set_option maxRecDepth 10000 in
/-- Counterexample for C9. The claim says the title-seeded local
summary path is deterministic across calls. The source draws a random
number (modelled by the draw floor argument) that picks how many
variant sentences follow the opening one, so two calls on the same
title with different hidden draws return different paragraphs. -/
theorem c9_counterexample :
    generateTitleBasedSummary "Example".toList 0 ≠
      generateTitleBasedSummary "Example".toList 3 := by
  decide

/-- C9 amended. The input-text fallback summarizers are pure functions
of their input, hence deterministic, and the title-seeded summarizer is
deterministic once its hidden random draw is fixed: rerunning any of
them on identical arguments yields identical output. -/
theorem c9_determinism_fixed_draw :
    ∀ text title : Str, ∀ r : Nat,
      localSummaryFromText text 5 8 = localSummaryFromText text 5 8 ∧
      generateFallbackSummary text = generateFallbackSummary text ∧
      generateTitleBasedSummary title r = generateTitleBasedSummary title r :=
  fun _ _ _ => ⟨rfl, rfl, rfl⟩

/-- C10. Every article built from a feed entry has a nonempty publish
date, the current timestamp being substituted when the entry has none,
and every processed item carries a nonempty publishedAt string, given
that the date serializer builtin always returns a nonempty ISO string
when it returns. -/
theorem c10_publish_date_nonempty (ctx : Ctx) (src : NewsSource) (it : FeedItem)
    (now : Str) (raw : RawFeedItem)
    (hnow : now ≠ []) (hiso : ∀ s : Str, ctx.dateToIso s ≠ []) :
    (buildArticle now raw).pubDate ≠ [] ∧
    (raw.pubDate = [] → (buildArticle now raw).pubDate = now) ∧
    (processItem ctx src it).1.publishedAt ≠ [] ∧
    (it.pubDate = [] →
      (processItem ctx src it).1.publishedAt = ctx.dateToIso ctx.nowIso) := by
  refine ⟨?_, ?_, ?_, ?_⟩
  · show jsOr raw.pubDate now ≠ []
    unfold jsOr
    split
    · exact hnow
    · next hx => exact hx
  · intro h
    show jsOr raw.pubDate now = now
    simp [jsOr, h]
  · show ctx.dateToIso (jsOr it.pubDate ctx.nowIso) ≠ []
    exact hiso _
  · intro h
    show ctx.dateToIso (jsOr it.pubDate ctx.nowIso) = ctx.dateToIso ctx.nowIso
    rw [show jsOr it.pubDate ctx.nowIso = ctx.nowIso from by simp [jsOr, h]]

set_option maxRecDepth 4000 in
/-- Witness for C10: a feed entry and an article row with no publish
date get the current timestamp, and the processed item publishedAt is
the serialized substitute. -/
theorem c10_publish_date_nonempty_witness :
    (buildArticle "2026-02-03T00:00:00.000Z".toList
      { title := [], description := [], summaryField := [], contentSnippet := [],
        content := [], link := [], guid := [], pubDate := [] }).pubDate ≠ [] ∧
    (buildArticle "2026-02-03T00:00:00.000Z".toList
      { title := [], description := [], summaryField := [], contentSnippet := [],
        content := [], link := [], guid := [], pubDate := [] }).pubDate =
      "2026-02-03T00:00:00.000Z".toList ∧
    (processItem
      { hasOpenAI := false, remoteOf := fun _ => .err [],
        dateToIso := fun _ => "1970-01-01T00:00:00.000Z".toList,
        nowIso := "2026-01-01T00:00:00.000Z".toList }
      { name := "BBC World".toList, rss := "rss".toList }
      { title := [], content := [], contentSnippet := [], description := [],
        summaryField := [], link := [], guid := [], pubDate := [] }).1.publishedAt ≠ [] ∧
    (processItem
      { hasOpenAI := false, remoteOf := fun _ => .err [],
        dateToIso := fun _ => "1970-01-01T00:00:00.000Z".toList,
        nowIso := "2026-01-01T00:00:00.000Z".toList }
      { name := "BBC World".toList, rss := "rss".toList }
      { title := [], content := [], contentSnippet := [], description := [],
        summaryField := [], link := [], guid := [], pubDate := [] }).1.publishedAt =
      "1970-01-01T00:00:00.000Z".toList := by
  have h := c10_publish_date_nonempty
    { hasOpenAI := false, remoteOf := fun _ => .err [],
      dateToIso := fun _ => "1970-01-01T00:00:00.000Z".toList,
      nowIso := "2026-01-01T00:00:00.000Z".toList }
    { name := "BBC World".toList, rss := "rss".toList }
    { title := [], content := [], contentSnippet := [], description := [],
      summaryField := [], link := [], guid := [], pubDate := [] }
    "2026-02-03T00:00:00.000Z".toList
    { title := [], description := [], summaryField := [], contentSnippet := [],
      content := [], link := [], guid := [], pubDate := [] }
    (by decide)
    (fun _ hx =>
      (by decide : ("1970-01-01T00:00:00.000Z".toList : Str) ≠ []) hx)
  exact ⟨h.1, h.2.1 rfl, h.2.2.1, h.2.2.2 rfl⟩

end ZanyWhisper
